import Mathlib

/-!
# Verification of the ralphy in-memory task service

Shallow embedding of `src/main.go` (the counter-based variant, the one the
specification's line references point at): the `TaskStore` with its four
operations `Create`, `Get`, `GetAll`, `Delete`, and the HTTP routing layer
`Server.ServeHTTP` with its handlers.

Modelling conventions:
* Go's built-in `map[string]Task` is modelled as an association list in which
  assignment replaces any existing binding and `delete` removes it; iteration
  order is the list order (the spec leaves map order unspecified).
* Go methods on `*TaskStore` are modelled uniformly as state transformers
  `TaskStore → result × TaskStore`, so that read-only methods visibly return
  the unchanged store.
* `time.Now()` is modelled as a `Nat` tick passed in by the caller; its JSON
  encoding (RFC 3339 in Go, always a non-empty string) is modelled as the
  decimal form of the tick.
* `fmt.Sprintf "task-%d"` is modelled by `taskId`, built from a decimal
  digit printer `natDec` that mirrors `%d`.
* The JSON decoding of a POST body (`json.Decoder.Decode` into a struct with
  `title` and `description` fields) is abstracted to its outcome: either the
  decode fails (`ReqBody.malformed`) or it yields the two decoded strings,
  a missing field decoding to `""` as in Go.
-/

namespace Ralphy

/-- One decimal digit character, as produced by Go's `%d` verb (digit `n`,
`0 ≤ n ≤ 9`, prints as the character `'0' + n`). -/
def digitChar (n : Nat) : Char :=
  Char.ofNat (48 + n)

/-- Fuel-driven digit printer; with fuel above `n` it prints the decimal
digits of `n`, most significant first. -/
def natDecCharsAux : Nat → Nat → List Char
  | 0, _ => []
  | fuel + 1, n =>
    if n < 10 then [digitChar n]
    else natDecCharsAux fuel (n / 10) ++ [digitChar (n % 10)]

/-- The decimal digit characters of `n`, most significant first: the model of
Go's `%d` formatting of a non-negative integer. -/
def natDecChars (n : Nat) : List Char :=
  natDecCharsAux (n + 1) n

/-- Decimal string of `n` (Go `fmt.Sprintf "%d" n`). -/
def natDec (n : Nat) : String :=
  ⟨natDecChars n⟩

/-- `fmt.Sprintf("task-%d", n)` from `TaskStore.Create`. -/
def taskId (n : Nat) : String :=
  ⟨"task-".data ++ natDecChars n⟩

/-- JSON encoding of the model timestamp.  Go encodes a `time.Time` as an
RFC 3339 string, which is non-empty for every instant; we model the instant
as a `Nat` tick and its encoding as the tick's decimal form, for which
non-emptiness holds just as for any RFC 3339 rendering. -/
def timeEncode (t : Nat) : String :=
  natDec t

/-- The `Task` struct of `main.go`. -/
structure Task where
  id : String
  title : String
  description : String
  completed : Bool
  createdAt : Nat
  deriving Repr, DecidableEq

/-- The Go map `map[string]Task`, as an association list. -/
abbrev TaskMap := List (String × Task)

/-- Go map read `m[k]`: the value at the first binding of `k`, if any. -/
def mapLookup (m : TaskMap) (k : String) : Option Task :=
  (m.find? (fun e => decide (e.1 = k))).map (fun e => e.2)

/-- Go `delete(m, k)`: remove every binding of `k`. -/
def mapErase (m : TaskMap) (k : String) : TaskMap :=
  m.filter (fun e => decide (e.1 ≠ k))

/-- Go map assignment `m[k] = v`: bind `k` to `v`, dropping any old binding. -/
def mapInsert (m : TaskMap) (k : String) (v : Task) : TaskMap :=
  (k, v) :: mapErase m k

/-- The `TaskStore` struct: the task map and the id counter (the mutex has no
observable content in a sequential model). -/
structure TaskStore where
  tasks : TaskMap
  nextID : Nat
  deriving Repr, DecidableEq

/-- `NewTaskStore`: empty map, counter starting at 1. -/
def newTaskStore : TaskStore :=
  { tasks := [], nextID := 1 }

/-- `TaskStore.Create`: mint id `task-<nextID>`, increment the counter, store
the new record, return a copy of it. -/
def TaskStore.create (s : TaskStore) (now : Nat) (title description : String) :
    Task × TaskStore :=
  let id := taskId s.nextID
  let task : Task :=
    { id := id, title := title, description := description,
      completed := false, createdAt := now }
  (task, { tasks := mapInsert s.tasks id task, nextID := s.nextID + 1 })

/-- `TaskStore.Get`: look the id up; absence is the `none` case (Go's
`ok = false`).  The store comes back unchanged because the method body only
reads. -/
def TaskStore.get (s : TaskStore) (id : String) : Option Task × TaskStore :=
  (mapLookup s.tasks id, s)

/-- `TaskStore.GetAll`: snapshot slice of all stored tasks. -/
def TaskStore.getAll (s : TaskStore) : List Task × TaskStore :=
  (s.tasks.map (fun e => e.2), s)

/-- `TaskStore.Delete`: if the id is absent return `false` and leave the store
as is, otherwise remove the record and return `true`. -/
def TaskStore.delete (s : TaskStore) (id : String) : Bool × TaskStore :=
  match mapLookup s.tasks id with
  | none => (false, s)
  | some _ => (true, { s with tasks := mapErase s.tasks id })

/-- Outcome of decoding the POST body with `json.Decoder.Decode`: either the
decode errors (invalid JSON, or JSON not matching the input struct), or it
produces the decoded `title` and `description` strings, a field missing from
the JSON object decoding to `""`. -/
inductive ReqBody where
  | malformed
  | json (title description : String)
  deriving Repr, DecidableEq

/-- The JSON value written into an HTTP response. -/
inductive RespBody where
  | tasksJson (ts : List Task)
  | taskJson (t : Task)
  | errJson (msg : String)
  | empty
  deriving Repr, DecidableEq

/-- An HTTP response: status code plus body. -/
structure Response where
  status : Nat
  body : RespBody
  deriving Repr, DecidableEq

/-- `Server.notFound`. -/
def notFoundResp : Response :=
  { status := 404, body := .errJson "not found" }

/-- `Server.methodNotAllowed`. -/
def methodNotAllowedResp : Response :=
  { status := 405, body := .errJson "method not allowed" }

/-- `strings.HasPrefix` on the character sequences. -/
def goHasPre (str pre : String) : Bool :=
  pre.data.isPrefixOf str.data

/-- `strings.TrimPrefix`: cut the leading occurrence if present, otherwise
return the string unchanged. -/
def goTrimPre (str pre : String) : String :=
  if goHasPre str pre then ⟨str.data.drop pre.data.length⟩ else str

/-- `Server.listTasks`: 200 with the snapshot of all tasks. -/
def listTasks (s : TaskStore) : Response × TaskStore :=
  let r := s.getAll
  ({ status := 200, body := .tasksJson r.1 }, r.2)

/-- `Server.createTask`: decode body (`malformed` → 400), reject empty title
(→ 400), otherwise create and answer 201 with the new task. -/
def createTask (now : Nat) (body : ReqBody) (s : TaskStore) :
    Response × TaskStore :=
  match body with
  | .malformed => ({ status := 400, body := .errJson "invalid JSON body" }, s)
  | .json title description =>
    if title = "" then
      ({ status := 400, body := .errJson "title is required" }, s)
    else
      let r := s.create now title description
      ({ status := 201, body := .taskJson r.1 }, r.2)

/-- `Server.getTask`: 200 with the task, or 404. -/
def getTask (id : String) (s : TaskStore) : Response × TaskStore :=
  match s.get id with
  | (none, s') => ({ status := 404, body := .errJson "task not found" }, s')
  | (some t, s') => ({ status := 200, body := .taskJson t }, s')

/-- `Server.deleteTask`: delete, then 204 with empty body on success or 404. -/
def deleteTask (id : String) (s : TaskStore) : Response × TaskStore :=
  let r := s.delete id
  if r.1 then ({ status := 204, body := .empty }, r.2)
  else ({ status := 404, body := .errJson "task not found" }, r.2)

/-- `Server.ServeHTTP`: the router of `main.go`.  `/tasks` and `/tasks/` take
GET (list) and POST (create); other paths starting with `/tasks/` carry the id
as the remainder and take GET and DELETE; everything else is 404. -/
def serveHTTP (now : Nat) (method path : String) (body : ReqBody)
    (s : TaskStore) : Response × TaskStore :=
  if path = "/tasks" ∨ path = "/tasks/" then
    if method = "GET" then listTasks s
    else if method = "POST" then createTask now body s
    else (methodNotAllowedResp, s)
  else if goHasPre path "/tasks/" then
    let id := goTrimPre path "/tasks/"
    if id = "" then (notFoundResp, s)
    else if method = "GET" then getTask id s
    else if method = "DELETE" then deleteTask id s
    else (methodNotAllowedResp, s)
  else (notFoundResp, s)

/-- Store well-formedness: the map's keys are distinct (as they are for a Go
map by construction), the counter is at least its initial value 1, and every
key was minted by an earlier `Create`, i.e. is `task-<j>` for some `j` below
the counter.  `newTaskStore` satisfies it and every operation preserves it. -/
def TaskStore.Wf (s : TaskStore) : Prop :=
  (s.tasks.map Prod.fst).Nodup ∧ 0 < s.nextID ∧
    ∀ k ∈ s.tasks.map Prod.fst, ∃ j, 0 < j ∧ j < s.nextID ∧ k = taskId j

/-- A store-mutating call: `Create` (with its clock tick and inputs) or
`Delete` (with its id).  `Get`/`GetAll` are read-only and need no entry. -/
inductive Op where
  | create (now : Nat) (title description : String)
  | delete (id : String)
  deriving Repr, DecidableEq

/-- The store left behind by one call. -/
def applyOp (s : TaskStore) : Op → TaskStore
  | .create now title description => (s.create now title description).2
  | .delete id => (s.delete id).2

/-- Run a sequence of calls left to right. -/
def runOps (s : TaskStore) : List Op → TaskStore
  | [] => s
  | op :: rest => runOps (applyOp s op) rest

/-- The ids handed out by the `Create` calls of a run, in call order. -/
def createdIds (s : TaskStore) : List Op → List String
  | [] => []
  | .create now title description :: rest =>
    (s.create now title description).1.id ::
      createdIds (s.create now title description).2 rest
  | .delete id :: rest => createdIds (s.delete id).2 rest

/-- How many `Delete` calls of a run returned `true`. -/
def okDeletes (s : TaskStore) : List Op → Nat
  | [] => 0
  | .create now title description :: rest =>
    okDeletes (s.create now title description).2 rest
  | .delete id :: rest =>
    (if (s.delete id).1 then 1 else 0) + okDeletes (s.delete id).2 rest

/-- How many `Create` calls a sequence contains. -/
def numCreates : List Op → Nat
  | [] => 0
  | .create _ _ _ :: rest => numCreates rest + 1
  | .delete _ :: rest => numCreates rest

/-- A sequence of `Create` calls only, one per input triple. -/
def createsOf (inputs : List (Nat × String × String)) : List Op :=
  inputs.map (fun x => Op.create x.1 x.2.1 x.2.2)

/-- Every task held in the store has `completed = false`. -/
def AllFalse (s : TaskStore) : Prop :=
  ∀ e ∈ s.tasks, e.2.completed = false

/-- The stores reachable through the public surface: the fresh store, any HTTP
request, and the store-level mutating calls themselves. -/
inductive Reachable : TaskStore → Prop where
  | init : Reachable newTaskStore
  | http (now : Nat) (method path : String) (body : ReqBody) {s : TaskStore} :
      Reachable s → Reachable (serveHTTP now method path body s).2
  | createCall (now : Nat) (title description : String) {s : TaskStore} :
      Reachable s → Reachable (s.create now title description).2
  | deleteCall (id : String) {s : TaskStore} :
      Reachable s → Reachable (s.delete id).2

/-! ## Decimal formatting lemmas -/

theorem digitChar_inj :
    ∀ a, a < 10 → ∀ b, b < 10 → digitChar a = digitChar b → a = b := by
  decide

theorem natDecCharsAux_congr (f₁ : Nat) :
    ∀ f₂ n, n < f₁ → n < f₂ → natDecCharsAux f₁ n = natDecCharsAux f₂ n := by
  induction f₁ with
  | zero => intro f₂ n h₁ _; omega
  | succ f ih =>
    intro f₂ n h₁ h₂
    match f₂, h₂ with
    | f' + 1, _ =>
      simp only [natDecCharsAux]
      by_cases h : n < 10
      · simp [h]
      · simp only [if_neg h]
        have hd : n / 10 < n := Nat.div_lt_self (by omega) (by omega)
        rw [ih f' (n / 10) (by omega) (by omega)]

/-- The recursion equation of `natDecChars`, fuel hidden. -/
theorem natDecChars_eq (n : Nat) :
    natDecChars n =
      if n < 10 then [digitChar n]
      else natDecChars (n / 10) ++ [digitChar (n % 10)] := by
  by_cases h : n < 10
  · rw [if_pos h]
    show natDecCharsAux (n + 1) n = _
    conv_lhs => rw [natDecCharsAux]
    rw [if_pos h]
  · rw [if_neg h]
    show natDecCharsAux (n + 1) n = _
    conv_lhs => rw [natDecCharsAux]
    rw [if_neg h]
    have hd : n / 10 < n := Nat.div_lt_self (by omega) (by omega)
    congr 1
    exact natDecCharsAux_congr n (n / 10 + 1) (n / 10) (by omega) (by omega)

theorem natDecChars_ne_nil (n : Nat) : natDecChars n ≠ [] := by
  rw [natDecChars_eq]
  split <;> simp

theorem natDecChars_inj : ∀ a b, natDecChars a = natDecChars b → a = b := by
  intro a
  induction a using Nat.strong_induction_on with
  | _ a ih =>
    intro b hab
    rw [natDecChars_eq a, natDecChars_eq b] at hab
    by_cases ha : a < 10 <;> by_cases hb : b < 10
    · rw [if_pos ha, if_pos hb] at hab
      simp only [List.cons.injEq, and_true] at hab
      exact digitChar_inj a ha b hb hab
    · exfalso
      rw [if_pos ha, if_neg hb] at hab
      have hlen := congrArg List.length hab
      simp only [List.length_cons, List.length_append, List.length_nil] at hlen
      exact natDecChars_ne_nil (b / 10) (List.length_eq_zero.mp (by omega))
    · exfalso
      rw [if_neg ha, if_pos hb] at hab
      have hlen := congrArg List.length hab
      simp only [List.length_cons, List.length_append, List.length_nil] at hlen
      exact natDecChars_ne_nil (a / 10) (List.length_eq_zero.mp (by omega))
    · rw [if_neg ha, if_neg hb] at hab
      obtain ⟨h₁, h₂⟩ := List.append_inj' hab (by simp)
      simp only [List.cons.injEq, and_true] at h₂
      have hmod : a % 10 = b % 10 :=
        digitChar_inj _ (Nat.mod_lt _ (by omega)) _ (Nat.mod_lt _ (by omega)) h₂
      have hdiv : a / 10 = b / 10 :=
        ih (a / 10) (Nat.div_lt_self (by omega) (by omega)) (b / 10) h₁
      omega

theorem taskId_inj : ∀ a b, taskId a = taskId b → a = b := by
  intro a b h
  have hd : "task-".data ++ natDecChars a = "task-".data ++ natDecChars b :=
    congrArg String.data h
  exact natDecChars_inj a b (List.append_cancel_left hd)

theorem taskId_ne_empty (n : Nat) : taskId n ≠ "" := by
  intro h
  have hd : "task-".data ++ natDecChars n = [] := congrArg String.data h
  exact natDecChars_ne_nil n (List.append_eq_nil.mp hd).2

theorem timeEncode_ne_empty (t : Nat) : timeEncode t ≠ "" := by
  intro h
  have hd : natDecChars t = [] := congrArg String.data h
  exact natDecChars_ne_nil t hd

/-! ## Association-list map lemmas -/

theorem mapLookup_cons (e : String × Task) (m : TaskMap) (k : String) :
    mapLookup (e :: m) k = if e.1 = k then some e.2 else mapLookup m k := by
  by_cases h : e.1 = k
  · rw [if_pos h]
    unfold mapLookup
    rw [List.find?_cons_of_pos _ (by simpa using h)]
    rfl
  · rw [if_neg h]
    unfold mapLookup
    rw [List.find?_cons_of_neg _ (by simpa using h)]

theorem mapLookup_eq_none_iff (m : TaskMap) (k : String) :
    mapLookup m k = none ↔ ∀ e ∈ m, e.1 ≠ k := by
  simp [mapLookup, Option.map_eq_none', List.find?_eq_none]

theorem mapLookup_mem (m : TaskMap) (k : String) (t : Task)
    (h : mapLookup m k = some t) : ∃ e ∈ m, e.2 = t := by
  simp only [mapLookup, Option.map_eq_some'] at h
  obtain ⟨e, hf, he⟩ := h
  exact ⟨e, List.mem_of_find?_eq_some hf, he⟩

theorem mapErase_cons_self (e : String × Task) (m : TaskMap) (k : String)
    (h : e.1 = k) : mapErase (e :: m) k = mapErase m k := by
  simp [mapErase, List.filter_cons, h]

theorem mapErase_cons_ne (e : String × Task) (m : TaskMap) (k : String)
    (h : ¬e.1 = k) : mapErase (e :: m) k = e :: mapErase m k := by
  simp [mapErase, List.filter_cons, h]

theorem mapLookup_erase (m : TaskMap) (k k' : String) :
    mapLookup (mapErase m k) k' = if k' = k then none else mapLookup m k' := by
  induction m with
  | nil =>
    show mapLookup [] k' = if k' = k then none else mapLookup [] k'
    split <;> rfl
  | cons e m ih =>
    by_cases hek : e.1 = k
    · rw [mapErase_cons_self e m k hek, ih, mapLookup_cons]
      by_cases hk' : k' = k
      · simp [hk']
      · have hne : ¬e.1 = k' := by rw [hek]; exact fun hh => hk' hh.symm
        simp [hk', hne]
    · rw [mapErase_cons_ne e m k hek, mapLookup_cons, ih, mapLookup_cons]
      by_cases hk' : k' = k
      · have hne : ¬e.1 = k' := by rw [hk']; exact hek
        simp [hk', hne, hek]
      · simp [hk']

theorem mapLookup_erase_self (m : TaskMap) (k : String) :
    mapLookup (mapErase m k) k = none := by
  rw [mapLookup_erase]; simp

theorem mapLookup_insert_self (m : TaskMap) (k : String) (v : Task) :
    mapLookup (mapInsert m k v) k = some v := by
  rw [mapInsert, mapLookup_cons]; simp

theorem mapLookup_insert_ne (m : TaskMap) (k : String) (v : Task) (k' : String)
    (h : k' ≠ k) : mapLookup (mapInsert m k v) k' = mapLookup m k' := by
  rw [mapInsert, mapLookup_cons, if_neg (fun hh => h hh.symm), mapLookup_erase,
    if_neg h]

theorem mapErase_of_lookup_none (m : TaskMap) (k : String)
    (h : mapLookup m k = none) : mapErase m k = m := by
  rw [mapErase, List.filter_eq_self]
  intro e he
  simpa using (mapLookup_eq_none_iff m k).mp h e he

theorem mapInsert_length_of_none (m : TaskMap) (k : String) (v : Task)
    (h : mapLookup m k = none) : (mapInsert m k v).length = m.length + 1 := by
  rw [mapInsert, mapErase_of_lookup_none m k h, List.length_cons]

theorem mapErase_keys (m : TaskMap) (k : String) :
    (mapErase m k).map Prod.fst =
      (m.map Prod.fst).filter (fun x => decide (x ≠ k)) := by
  rw [mapErase, List.filter_map]
  rfl

theorem mapErase_keys_sub (m : TaskMap) (k x : String)
    (hx : x ∈ (mapErase m k).map Prod.fst) : x ∈ m.map Prod.fst ∧ x ≠ k := by
  rw [mapErase_keys] at hx
  exact ⟨List.mem_of_mem_filter hx, by simpa using List.of_mem_filter hx⟩

theorem mapErase_keys_nodup (m : TaskMap) (k : String)
    (h : (m.map Prod.fst).Nodup) : ((mapErase m k).map Prod.fst).Nodup := by
  rw [mapErase_keys]
  exact h.filter _

theorem mapInsert_keys_nodup (m : TaskMap) (k : String) (v : Task)
    (h : (m.map Prod.fst).Nodup) : ((mapInsert m k v).map Prod.fst).Nodup := by
  rw [mapInsert, List.map_cons, List.nodup_cons]
  refine ⟨fun hk => ?_, mapErase_keys_nodup m k h⟩
  exact (mapErase_keys_sub m k k hk).2 rfl

theorem mapErase_length_of_found (m : TaskMap) (k : String)
    (hn : (m.map Prod.fst).Nodup) (hs : mapLookup m k ≠ none) :
    (mapErase m k).length + 1 = m.length := by
  induction m with
  | nil => exact absurd rfl hs
  | cons e m ih =>
    rw [List.map_cons, List.nodup_cons] at hn
    by_cases hek : e.1 = k
    · rw [mapErase_cons_self e m k hek]
      have hnone : mapLookup m k = none := by
        rw [mapLookup_eq_none_iff]
        intro e' he' hk'
        have hmem : e'.1 ∈ List.map Prod.fst m := List.mem_map_of_mem Prod.fst he'
        rw [hk', ← hek] at hmem
        exact hn.1 hmem
      rw [mapErase_of_lookup_none m k hnone, List.length_cons]
    · rw [mapErase_cons_ne e m k hek, List.length_cons]
      have hs' : mapLookup m k ≠ none := by
        rw [mapLookup_cons, if_neg hek] at hs
        exact hs
      rw [ih hn.2 hs', List.length_cons]

/-! ## Store invariant lemmas -/

theorem wf_new : newTaskStore.Wf := by
  refine ⟨List.nodup_nil, Nat.one_pos, ?_⟩
  intro k hk
  simp [newTaskStore] at hk

theorem lookup_fresh_id (s : TaskStore) (h : s.Wf) :
    mapLookup s.tasks (taskId s.nextID) = none := by
  rw [mapLookup_eq_none_iff]
  intro e he heq
  obtain ⟨j, hj0, hjlt, hje⟩ := h.2.2 e.1 (List.mem_map_of_mem Prod.fst he)
  have : j = s.nextID := taskId_inj j s.nextID (by rw [← hje, heq])
  omega

theorem create_result (s : TaskStore) (now : Nat) (title description : String) :
    (s.create now title description).1 =
      { id := taskId s.nextID, title := title, description := description,
        completed := false, createdAt := now } := rfl

theorem create_state (s : TaskStore) (now : Nat) (title description : String) :
    (s.create now title description).2 =
      { tasks := mapInsert s.tasks (taskId s.nextID)
          { id := taskId s.nextID, title := title, description := description,
            completed := false, createdAt := now },
        nextID := s.nextID + 1 } := rfl

theorem delete_of_none (s : TaskStore) (id : String)
    (h : mapLookup s.tasks id = none) : s.delete id = (false, s) := by
  rw [TaskStore.delete, h]

theorem delete_of_some (s : TaskStore) (id : String) (v : Task)
    (h : mapLookup s.tasks id = some v) :
    s.delete id = (true, { s with tasks := mapErase s.tasks id }) := by
  rw [TaskStore.delete, h]

theorem delete_nextID (s : TaskStore) (id : String) :
    ((s.delete id).2).nextID = s.nextID := by
  rw [TaskStore.delete]
  cases mapLookup s.tasks id <;> rfl

theorem wf_create (s : TaskStore) (now : Nat) (title description : String)
    (h : s.Wf) : ((s.create now title description).2).Wf := by
  obtain ⟨hn, hpos, hb⟩ := h
  refine ⟨?_, ?_, ?_⟩
  · show ((mapInsert s.tasks (taskId s.nextID)
        { id := taskId s.nextID, title := title, description := description,
          completed := false, createdAt := now }).map Prod.fst).Nodup
    exact mapInsert_keys_nodup _ _ _ hn
  · show 0 < s.nextID + 1
    omega
  · intro k hk
    replace hk : k ∈ (mapInsert s.tasks (taskId s.nextID)
        { id := taskId s.nextID, title := title, description := description,
          completed := false, createdAt := now }).map Prod.fst := hk
    show ∃ j, 0 < j ∧ j < s.nextID + 1 ∧ k = taskId j
    rw [mapInsert, List.map_cons] at hk
    rcases List.mem_cons.mp hk with hk | hk
    · exact ⟨s.nextID, by omega, by omega, hk⟩
    · obtain ⟨j, hj0, hjlt, hje⟩ := hb k (mapErase_keys_sub s.tasks _ k hk).1
      exact ⟨j, hj0, by omega, hje⟩

theorem wf_delete (s : TaskStore) (id : String) (h : s.Wf) :
    ((s.delete id).2).Wf := by
  cases hl : mapLookup s.tasks id with
  | none => rw [delete_of_none s id hl]; exact h
  | some v =>
    rw [delete_of_some s id v hl]
    obtain ⟨hn, hpos, hb⟩ := h
    refine ⟨mapErase_keys_nodup _ _ hn, hpos, ?_⟩
    intro k hk
    exact hb k (mapErase_keys_sub s.tasks id k hk).1

theorem create_tasks_length (s : TaskStore) (now : Nat)
    (title description : String) (h : s.Wf) :
    ((s.create now title description).2).tasks.length = s.tasks.length + 1 := by
  rw [create_state]
  exact mapInsert_length_of_none _ _ _ (lookup_fresh_id s h)

/-! ## Trace lemmas -/

theorem createdIds_eq (ops : List Op) :
    ∀ s : TaskStore,
      createdIds s ops = (List.range' s.nextID (numCreates ops)).map taskId := by
  induction ops with
  | nil => intro s; rfl
  | cons op rest ih =>
    intro s
    cases op with
    | create now title description =>
      rw [show numCreates (Op.create now title description :: rest) =
            numCreates rest + 1 from rfl,
        List.range'_succ, List.map_cons]
      show (s.create now title description).1.id ::
          createdIds (s.create now title description).2 rest = _
      rw [ih, create_result, create_state]
    | delete id =>
      show createdIds (s.delete id).2 rest = _
      rw [ih, delete_nextID]
      rfl

theorem createdIds_nodup (ops : List Op) (s : TaskStore) :
    (createdIds s ops).Nodup := by
  rw [createdIds_eq]
  exact (List.nodup_range' _ _).map fun a b => taskId_inj a b

theorem createdIds_length (ops : List Op) (s : TaskStore) :
    (createdIds s ops).length = numCreates ops := by
  rw [createdIds_eq]
  simp

theorem runOps_wf (ops : List Op) :
    ∀ s : TaskStore, s.Wf → (runOps s ops).Wf := by
  induction ops with
  | nil => exact fun s h => h
  | cons op rest ih =>
    intro s h
    cases op with
    | create now title description =>
      exact ih _ (wf_create s now title description h)
    | delete id => exact ih _ (wf_delete s id h)

theorem runOps_length (ops : List Op) :
    ∀ s : TaskStore, s.Wf →
      (runOps s ops).tasks.length + okDeletes s ops =
        s.tasks.length + numCreates ops := by
  induction ops with
  | nil => intro s _; rfl
  | cons op rest ih =>
    intro s h
    cases op with
    | create now title description =>
      have h1 := ih _ (wf_create s now title description h)
      have h2 := create_tasks_length s now title description h
      show (runOps (s.create now title description).2 rest).tasks.length +
          okDeletes (s.create now title description).2 rest =
        s.tasks.length + (numCreates rest + 1)
      omega
    | delete id =>
      cases hl : mapLookup s.tasks id with
      | none =>
        have hdel := delete_of_none s id hl
        show (runOps (s.delete id).2 rest).tasks.length +
            ((if (s.delete id).1 then 1 else 0) +
              okDeletes (s.delete id).2 rest) =
          s.tasks.length + numCreates rest
        rw [hdel]
        have h1 := ih s h
        simpa using h1
      | some v =>
        have hdel := delete_of_some s id v hl
        show (runOps (s.delete id).2 rest).tasks.length +
            ((if (s.delete id).1 then 1 else 0) +
              okDeletes (s.delete id).2 rest) =
          s.tasks.length + numCreates rest
        rw [hdel]
        have hwf : ({ s with tasks := mapErase s.tasks id } : TaskStore).Wf := by
          have hw := wf_delete s id h
          rw [hdel] at hw
          exact hw
        have h1 := ih _ hwf
        have h2 := mapErase_length_of_found s.tasks id h.1
          (by rw [hl]; exact fun hh => Option.noConfusion hh)
        simp only [if_true] at h1 ⊢
        omega

/-! ## Handler state lemmas -/

theorem listTasks_state (s : TaskStore) : (listTasks s).2 = s := rfl

theorem getTask_state (id : String) (s : TaskStore) : (getTask id s).2 = s := by
  cases hl : mapLookup s.tasks id <;> simp [getTask, TaskStore.get, hl]

theorem deleteTask_state (id : String) (s : TaskStore) :
    (deleteTask id s).2 = (s.delete id).2 := by
  simp only [deleteTask]
  split <;> rfl

/-! ## The completed flag is never set -/

theorem allFalse_create (s : TaskStore) (now : Nat) (title description : String)
    (h : AllFalse s) : AllFalse (s.create now title description).2 := by
  intro e he
  replace he : e ∈ mapInsert s.tasks (taskId s.nextID)
      { id := taskId s.nextID, title := title, description := description,
        completed := false, createdAt := now } := he
  rcases List.mem_cons.mp he with rfl | hm
  · rfl
  · exact h e (List.mem_of_mem_filter hm)

theorem allFalse_delete (s : TaskStore) (id : String) (h : AllFalse s) :
    AllFalse (s.delete id).2 := by
  cases hl : mapLookup s.tasks id with
  | none => rw [delete_of_none s id hl]; exact h
  | some v =>
    rw [delete_of_some s id v hl]
    intro e he
    replace he : e ∈ mapErase s.tasks id := he
    exact h e (List.mem_of_mem_filter he)

theorem allFalse_createTask (now : Nat) (body : ReqBody) (s : TaskStore)
    (h : AllFalse s) : AllFalse (createTask now body s).2 := by
  cases body with
  | malformed => exact h
  | json title description =>
    simp only [createTask]
    split
    · exact h
    · exact allFalse_create s now title description h

theorem allFalse_http (now : Nat) (method path : String) (body : ReqBody)
    (s : TaskStore) (h : AllFalse s) :
    AllFalse (serveHTTP now method path body s).2 := by
  simp only [serveHTTP]
  split_ifs <;>
    first
      | exact h
      | exact allFalse_createTask now body s h
      | (rw [getTask_state]; exact h)
      | (rw [deleteTask_state]; exact allFalse_delete s _ h)

theorem reachable_allFalse (s : TaskStore) (h : Reachable s) : AllFalse s := by
  induction h with
  | init => intro e he; simp [newTaskStore] at he
  | http now method path body _ ih => exact allFalse_http now method path body _ ih
  | createCall now title description _ ih =>
    exact allFalse_create _ now title description ih
  | deleteCall id _ ih => exact allFalse_delete _ id ih

/-! ## Claim theorems -/

theorem numCreates_createsOf (inputs : List (Nat × String × String)) :
    numCreates (createsOf inputs) = inputs.length := by
  induction inputs with
  | nil => rfl
  | cons x rest ih =>
    show numCreates (createsOf rest) + 1 = rest.length + 1
    rw [ih]

/-- Claim C1: for every non-empty title and every description, `Create`
followed by `Get` on the returned id finds the task; its title and
description equal the inputs, `completed` is `false`, and both the id and
the encoded creation timestamp are non-empty. -/
theorem create_then_get_roundtrip (s : TaskStore) (now : Nat)
    (title description : String) (_h : title ≠ "") :
    (((s.create now title description).2).get
        ((s.create now title description).1).id).1 =
      some (s.create now title description).1 ∧
    ((s.create now title description).1).title = title ∧
    ((s.create now title description).1).description = description ∧
    ((s.create now title description).1).completed = false ∧
    ((s.create now title description).1).id ≠ "" ∧
    timeEncode ((s.create now title description).1).createdAt ≠ "" := by
  refine ⟨?_, rfl, rfl, rfl, taskId_ne_empty s.nextID, timeEncode_ne_empty now⟩
  exact mapLookup_insert_self _ _ _

theorem create_then_get_roundtrip_witness :
    ("todo" : String) ≠ "" ∧
    ((((newTaskStore.create 5 "todo" "desc").2).get
        ((newTaskStore.create 5 "todo" "desc").1).id).1 =
      some (newTaskStore.create 5 "todo" "desc").1 ∧
    ((newTaskStore.create 5 "todo" "desc").1).title = "todo" ∧
    ((newTaskStore.create 5 "todo" "desc").1).description = "desc" ∧
    ((newTaskStore.create 5 "todo" "desc").1).completed = false ∧
    ((newTaskStore.create 5 "todo" "desc").1).id ≠ "" ∧
    timeEncode ((newTaskStore.create 5 "todo" "desc").1).createdAt ≠ "") :=
  ⟨by decide, create_then_get_roundtrip newTaskStore 5 "todo" "desc" (by decide)⟩

/-- Claim C3: a POST to `/tasks` whose body fails to decode, or whose decoded
title is empty (missing titles decode to `""`), answers 400 with a JSON
error-object body and leaves the store untouched. -/
theorem post_invalid_rejected (now : Nat) (s : TaskStore) (body : ReqBody)
    (h : body = ReqBody.malformed ∨ ∃ d, body = ReqBody.json "" d) :
    (serveHTTP now "POST" "/tasks" body s).1.status = 400 ∧
    (∃ msg, (serveHTTP now "POST" "/tasks" body s).1.body =
      RespBody.errJson msg) ∧
    (serveHTTP now "POST" "/tasks" body s).2 = s := by
  have hs : serveHTTP now "POST" "/tasks" body s = createTask now body s := rfl
  rcases h with rfl | ⟨d, rfl⟩
  · rw [hs]
    exact ⟨rfl, ⟨"invalid JSON body", rfl⟩, rfl⟩
  · rw [hs]
    simp only [createTask, if_pos rfl]
    exact ⟨rfl, ⟨"title is required", rfl⟩, rfl⟩

theorem post_invalid_rejected_witness :
    (serveHTTP 0 "POST" "/tasks" ReqBody.malformed newTaskStore).1.status =
      400 ∧
    (∃ msg, (serveHTTP 0 "POST" "/tasks" ReqBody.malformed
      newTaskStore).1.body = RespBody.errJson msg) ∧
    (serveHTTP 0 "POST" "/tasks" ReqBody.malformed newTaskStore).2 =
      newTaskStore :=
  post_invalid_rejected 0 newTaskStore ReqBody.malformed (Or.inl rfl)

/-- Claim C4: `Delete` returns `true` exactly when the id is present, removes
exactly that record (other ids read the same afterwards, the deleted one reads
absent), is a stateless no-op returning `false` on an absent id, and a second
delete of the same id returns `false`. -/
theorem delete_semantics (s : TaskStore) (id : String) :
    ((s.delete id).1 = true ↔ ((s.get id).1).isSome = true) ∧
    (((s.delete id).2).get id).1 = none ∧
    (∀ id', id' ≠ id → (((s.delete id).2).get id').1 = (s.get id').1) ∧
    ((s.get id).1 = none → s.delete id = (false, s)) ∧
    ((s.delete id).1 = true → (((s.delete id).2).delete id).1 = false) := by
  cases hl : mapLookup s.tasks id with
  | none =>
    have hd := delete_of_none s id hl
    refine ⟨?_, ?_, ?_, fun _ => hd, ?_⟩
    · rw [hd]
      have hg : ((s.get id).1).isSome = false := by
        show (mapLookup s.tasks id).isSome = false
        rw [hl]; rfl
      rw [hg]
    · rw [hd]; exact hl
    · intro id' _; rw [hd]
    · intro htrue
      rw [hd] at htrue
      exact absurd htrue (by simp)
  | some v =>
    have hd := delete_of_some s id v hl
    refine ⟨?_, ?_, ?_, ?_, ?_⟩
    · rw [hd]
      have hg : ((s.get id).1).isSome = true := by
        show (mapLookup s.tasks id).isSome = true
        rw [hl]; rfl
      rw [hg]
    · rw [hd]; exact mapLookup_erase_self s.tasks id
    · intro id' hne
      rw [hd]
      show mapLookup (mapErase s.tasks id) id' = mapLookup s.tasks id'
      rw [mapLookup_erase, if_neg hne]
    · intro hnone
      have h' : mapLookup s.tasks id = none := hnone
      rw [hl] at h'
      exact Option.noConfusion h'
    · intro _
      rw [hd]
      have h2 := delete_of_none { s with tasks := mapErase s.tasks id } id
        (mapLookup_erase_self s.tasks id)
      rw [h2]

theorem delete_semantics_witness :
    (((newTaskStore.create 0 "a" "").2).delete "task-1").1 = true ∧
    ((((newTaskStore.create 0 "a" "").2).delete "task-1").2.get
      "task-2").1 = ((newTaskStore.create 0 "a" "").2.get "task-2").1 ∧
    newTaskStore.delete "task-1" = (false, newTaskStore) ∧
    ((((newTaskStore.create 0 "a" "").2).delete "task-1").2.delete
      "task-1").1 = false :=
  ⟨(delete_semantics (newTaskStore.create 0 "a" "").2 "task-1").1.mpr
      (by decide),
   (delete_semantics (newTaskStore.create 0 "a" "").2 "task-1").2.2.1
      "task-2" (by decide),
   (delete_semantics newTaskStore "task-1").2.2.2.1 (by decide),
   (delete_semantics (newTaskStore.create 0 "a" "").2 "task-1").2.2.2.2
      ((delete_semantics (newTaskStore.create 0 "a" "").2 "task-1").1.mpr
        (by decide))⟩

/-- Claim C6 counterexample: `GET /tasks/` (bare trailing slash) does not
answer 404 or 400 — it is routed like `/tasks` and answers 200, a success. -/
theorem slash_route_counterexample :
    (serveHTTP 0 "GET" "/tasks/" ReqBody.malformed newTaskStore).1.status =
      200 ∧
    ¬((serveHTTP 0 "GET" "/tasks/" ReqBody.malformed
        newTaskStore).1.status = 404 ∨
      (serveHTTP 0 "GET" "/tasks/" ReqBody.malformed
        newTaskStore).1.status = 400) := by
  decide

/-- Claim C6, amended: a request on the path exactly `/tasks/` is routed
identically to `/tasks` (the router's first branch accepts both paths): GET
deterministically answers 200 with the task list and DELETE deterministically
answers 405; neither 404 nor 400 occurs on this path for these methods. -/
theorem slash_route_behavior (now : Nat) (body : ReqBody) (s : TaskStore) :
    serveHTTP now "GET" "/tasks/" body s = serveHTTP now "GET" "/tasks" body s ∧
    (serveHTTP now "GET" "/tasks/" body s).1 =
      { status := 200, body := RespBody.tasksJson (s.getAll).1 } ∧
    serveHTTP now "DELETE" "/tasks/" body s =
      serveHTTP now "DELETE" "/tasks" body s ∧
    serveHTTP now "DELETE" "/tasks/" body s = (methodNotAllowedResp, s) :=
  ⟨rfl, rfl, rfl, rfl⟩

/-- Claim C7: an empty store lists as the empty sequence, and after any finite
sequence of `Create` and `Delete` calls the size of `GetAll` equals the number
of creates minus the number of deletes that returned `true`. -/
theorem getAll_size_accounting (ops : List Op) :
    (newTaskStore.getAll).1 = [] ∧
    ((runOps newTaskStore ops).getAll).1.length + okDeletes newTaskStore ops =
      numCreates ops ∧
    ((runOps newTaskStore ops).getAll).1.length =
      numCreates ops - okDeletes newTaskStore ops := by
  have h := runOps_length ops newTaskStore wf_new
  have h0 : newTaskStore.tasks.length = 0 := rfl
  have hlen : ((runOps newTaskStore ops).getAll).1.length =
      (runOps newTaskStore ops).tasks.length := by
    show ((runOps newTaskStore ops).tasks.map _).length = _
    rw [List.length_map]
  refine ⟨rfl, by omega, by omega⟩

/-- Claim C9: `Get` and `GetAll` are read-only — the store they return is the
one they were given — and consequently any GET request leaves the store
unchanged. -/
theorem reads_leave_store_unchanged (s : TaskStore) (id : String) (now : Nat)
    (path : String) (body : ReqBody) :
    (s.get id).2 = s ∧ (s.getAll).2 = s ∧
    (serveHTTP now "GET" path body s).2 = s := by
  refine ⟨rfl, rfl, ?_⟩
  simp only [serveHTTP]
  split_ifs <;> first | rfl | (exact getTask_state _ s)

/-- Claim C10: ids are deterministic and never reused — starting from a fresh
store, the k-th `Create` of any interleaved `Create`/`Delete` call sequence
returns the id `task-k` (counter starts at 1, only `Create` moves it, by
exactly one), so every freshly returned id differs from all earlier ones,
deleted or not. -/
theorem ids_deterministic_no_reuse (ops : List Op) :
    createdIds newTaskStore ops = (List.range' 1 (numCreates ops)).map taskId ∧
    (createdIds newTaskStore ops).Nodup ∧
    newTaskStore.nextID = 1 ∧
    (∀ s : TaskStore, ∀ now title description,
      ((s.create now title description).2).nextID = s.nextID + 1) ∧
    (∀ s : TaskStore, ∀ id, ((s.delete id).2).nextID = s.nextID) ∧
    (∀ s : TaskStore, ∀ id, ((s.get id).2).nextID = s.nextID) ∧
    (∀ s : TaskStore, ((s.getAll).2).nextID = s.nextID) := by
  refine ⟨?_, createdIds_nodup ops newTaskStore, rfl,
    fun s now title description => rfl, fun s id => delete_nextID s id,
    fun s id => rfl, fun s => rfl⟩
  rw [createdIds_eq]
  rfl

/-- Claim C2: any sequence of `Create` calls on a well-formed store returns
pairwise-distinct ids, one per call, and after any call sequence whatsoever
the ids stored in the map remain pairwise distinct. -/
theorem creates_distinct (s : TaskStore) (h : s.Wf)
    (inputs : List (Nat × String × String)) :
    (createdIds s (createsOf inputs)).Nodup ∧
    (createdIds s (createsOf inputs)).length = inputs.length ∧
    ∀ ops : List Op, (runOps s ops).Wf ∧
      ((runOps s ops).tasks.map Prod.fst).Nodup := by
  refine ⟨createdIds_nodup _ _, ?_, ?_⟩
  · rw [createdIds_length, numCreates_createsOf]
  · intro ops
    have hw := runOps_wf ops s h
    exact ⟨hw, hw.1⟩

theorem creates_distinct_witness :
    (createdIds newTaskStore
      (createsOf [(0, "a", "b"), (1, "c", "d")])).Nodup ∧
    (createdIds newTaskStore
      (createsOf [(0, "a", "b"), (1, "c", "d")])).length =
        [(0, "a", "b"), (1, "c", "d")].length ∧
    ∀ ops : List Op, (runOps newTaskStore ops).Wf ∧
      ((runOps newTaskStore ops).tasks.map Prod.fst).Nodup :=
  creates_distinct newTaskStore wf_new [(0, "a", "b"), (1, "c", "d")]

/-- Claim C8: in every store state reachable through the public surface
(HTTP requests included), every stored task has `completed = false`, and so
does every task returned by `Create`, `Get` or `GetAll`. -/
theorem completed_never_true (s : TaskStore) (h : Reachable s) :
    (∀ e ∈ s.tasks, e.2.completed = false) ∧
    (∀ now title description,
      ((s.create now title description).1).completed = false) ∧
    (∀ id t, (s.get id).1 = some t → t.completed = false) ∧
    (∀ t ∈ (s.getAll).1, t.completed = false) := by
  have hA : AllFalse s := reachable_allFalse s h
  refine ⟨hA, fun _ _ _ => rfl, ?_, ?_⟩
  · intro id t ht
    obtain ⟨e, he, he2⟩ := mapLookup_mem s.tasks id t ht
    rw [← he2]
    exact hA e he
  · intro t ht
    replace ht : t ∈ s.tasks.map (fun e => e.2) := ht
    obtain ⟨e, he, he2⟩ := List.mem_map.mp ht
    rw [← he2]
    exact hA e he

theorem completed_never_true_witness :
    (∀ e ∈ ((serveHTTP 0 "POST" "/tasks" (ReqBody.json "a" "b")
        newTaskStore).2).tasks, e.2.completed = false) ∧
    ({ id := "task-1", title := "a", description := "b", completed := false,
        createdAt := 0 } : Task).completed = false :=
  ⟨(completed_never_true _
      (Reachable.http 0 "POST" "/tasks" (ReqBody.json "a" "b")
        Reachable.init)).1,
   (completed_never_true _
      (Reachable.http 0 "POST" "/tasks" (ReqBody.json "a" "b")
        Reachable.init)).2.2.1 "task-1" _ (by decide)⟩

/-! ## Path lemmas for the routing contract -/

theorem goHasPre_append (id : String) :
    goHasPre ("/tasks/" ++ id) "/tasks/" = true := by
  rw [goHasPre, String.data_append]
  exact List.isPrefixOf_iff_prefix.mpr (List.prefix_append _ _)

theorem goTrimPre_append (id : String) :
    goTrimPre ("/tasks/" ++ id) "/tasks/" = id := by
  rw [goTrimPre, if_pos (goHasPre_append id)]
  apply String.ext
  show (("/tasks/" ++ id).data).drop (("/tasks/" : String).data.length) =
    id.data
  rw [String.data_append]
  exact List.drop_left _ _

theorem tasksSlash_append_ne (id : String) (h : id ≠ "") :
    ¬("/tasks/" ++ id = "/tasks" ∨ "/tasks/" ++ id = "/tasks/") := by
  have hid : id.data ≠ [] := fun hn => h (String.ext hn)
  have h6 : ("/tasks" : String).data.length = 6 := rfl
  have h7 : ("/tasks/" : String).data.length = 7 := rfl
  intro hor
  rcases hor with he | he
  · have hlen := congrArg (fun x : String => x.data.length) he
    simp only [String.data_append, List.length_append, h6, h7] at hlen
    omega
  · have hlen := congrArg (fun x : String => x.data.length) he
    simp only [String.data_append, List.length_append, h7] at hlen
    exact hid (List.length_eq_zero.mp (by omega))

theorem serveHTTP_id_route (now : Nat) (method id : String) (body : ReqBody)
    (s : TaskStore) (hid : id ≠ "") :
    serveHTTP now method ("/tasks/" ++ id) body s =
      if method = "GET" then getTask id s
      else if method = "DELETE" then deleteTask id s
      else (methodNotAllowedResp, s) := by
  simp only [serveHTTP]
  rw [if_neg (tasksSlash_append_ne id hid), if_pos (goHasPre_append id),
    goTrimPre_append, if_neg hid]

/-- Claim C5: the status-code contract of the router — 405 for a wrong
method on `/tasks` or `/tasks/{id}`, 404 for any path outside the `/tasks`
surface, 200 for a list, 201 for a valid create, 204 with an empty body for a
successful delete, and 404 for a GET or DELETE of an unknown id. -/
theorem http_status_contract (now : Nat) (s : TaskStore) (method id : String)
    (body : ReqBody) (path : String) :
    (method ≠ "GET" → method ≠ "POST" →
      (serveHTTP now method "/tasks" body s).1.status = 405) ∧
    (id ≠ "" → method ≠ "GET" → method ≠ "DELETE" →
      (serveHTTP now method ("/tasks/" ++ id) body s).1.status = 405) ∧
    (path ≠ "/tasks" → goHasPre path "/tasks/" = false →
      (serveHTTP now method path body s).1.status = 404) ∧
    (serveHTTP now "GET" "/tasks" body s).1 =
      { status := 200, body := RespBody.tasksJson (s.getAll).1 } ∧
    (∀ title description, title ≠ "" →
      (serveHTTP now "POST" "/tasks" (ReqBody.json title description)
        s).1.status = 201) ∧
    (id ≠ "" → ((s.get id).1).isSome = true →
      (serveHTTP now "DELETE" ("/tasks/" ++ id) body s).1 =
        { status := 204, body := RespBody.empty }) ∧
    (id ≠ "" → (s.get id).1 = none →
      (serveHTTP now "GET" ("/tasks/" ++ id) body s).1.status = 404 ∧
      (serveHTTP now "DELETE" ("/tasks/" ++ id) body s).1.status = 404) := by
  refine ⟨?_, ?_, ?_, rfl, ?_, ?_, ?_⟩
  · intro hg hp
    simp only [serveHTTP]
    rw [if_pos (Or.inl trivial), if_neg hg, if_neg hp]
    rfl
  · intro hid hg hd
    rw [serveHTTP_id_route now method id body s hid, if_neg hg, if_neg hd]
    rfl
  · intro hp hpre
    simp only [serveHTTP]
    have hcond : ¬(path = "/tasks" ∨ path = "/tasks/") := by
      rintro (rfl | rfl)
      · exact hp rfl
      · exact absurd hpre (by decide)
    rw [if_neg hcond, if_neg (by rw [hpre]; exact Bool.false_ne_true)]
    rfl
  · intro title description ht
    have hs : serveHTTP now "POST" "/tasks" (ReqBody.json title description) s
        = createTask now (ReqBody.json title description) s := rfl
    rw [hs]
    simp only [createTask]
    rw [if_neg ht]
  · intro hid hsome
    rw [serveHTTP_id_route now "DELETE" id body s hid,
      if_neg (by decide), if_pos rfl]
    cases hl : mapLookup s.tasks id with
    | none =>
      exfalso
      have hg : ((s.get id).1).isSome = false := by
        show (mapLookup s.tasks id).isSome = false
        rw [hl]; rfl
      rw [hg] at hsome
      exact Bool.false_ne_true hsome
    | some v =>
      simp only [deleteTask]
      rw [delete_of_some s id v hl]
      rfl
  · intro hid hnone
    constructor
    · rw [serveHTTP_id_route now "GET" id body s hid, if_pos rfl]
      simp only [getTask, TaskStore.get]
      have h' : mapLookup s.tasks id = none := hnone
      rw [h']
    · rw [serveHTTP_id_route now "DELETE" id body s hid,
        if_neg (by decide), if_pos rfl]
      simp only [deleteTask]
      have h' : mapLookup s.tasks id = none := hnone
      rw [delete_of_none s id h']
      rfl

theorem http_status_contract_witness :
    (serveHTTP 0 "PUT" "/tasks" ReqBody.malformed newTaskStore).1.status =
      405 ∧
    (serveHTTP 0 "PATCH" ("/tasks/" ++ "x") ReqBody.malformed
      newTaskStore).1.status = 405 ∧
    (serveHTTP 0 "GET" "/nope" ReqBody.malformed newTaskStore).1.status =
      404 ∧
    (serveHTTP 0 "GET" "/tasks" ReqBody.malformed newTaskStore).1 =
      { status := 200,
        body := RespBody.tasksJson ((newTaskStore.getAll).1) } ∧
    (serveHTTP 0 "POST" "/tasks" (ReqBody.json "t" "d")
      newTaskStore).1.status = 201 ∧
    (serveHTTP 0 "DELETE" ("/tasks/" ++ "task-1") ReqBody.malformed
      (newTaskStore.create 3 "t" "d").2).1 =
      { status := 204, body := RespBody.empty } ∧
    (serveHTTP 0 "GET" ("/tasks/" ++ "task-9") ReqBody.malformed
      newTaskStore).1.status = 404 ∧
    (serveHTTP 0 "DELETE" ("/tasks/" ++ "task-9") ReqBody.malformed
      newTaskStore).1.status = 404 :=
  ⟨(http_status_contract 0 newTaskStore "PUT" "x" ReqBody.malformed
      "/nope").1 (by decide) (by decide),
   (http_status_contract 0 newTaskStore "PATCH" "x" ReqBody.malformed
      "/nope").2.1 (by decide) (by decide) (by decide),
   (http_status_contract 0 newTaskStore "GET" "x" ReqBody.malformed
      "/nope").2.2.1 (by decide) (by decide),
   (http_status_contract 0 newTaskStore "GET" "x" ReqBody.malformed
      "/nope").2.2.2.1,
   (http_status_contract 0 newTaskStore "GET" "x" ReqBody.malformed
      "/nope").2.2.2.2.1 "t" "d" (by decide),
   (http_status_contract 0 (newTaskStore.create 3 "t" "d").2 "DELETE"
      "task-1" ReqBody.malformed "/nope").2.2.2.2.2.1 (by decide)
      (by decide),
   ((http_status_contract 0 newTaskStore "GET" "task-9" ReqBody.malformed
      "/nope").2.2.2.2.2.2 (by decide) (by decide)).1,
   ((http_status_contract 0 newTaskStore "DELETE" "task-9" ReqBody.malformed
      "/nope").2.2.2.2.2.2 (by decide) (by decide)).2⟩

end Ralphy
